import Mathlib

/-
Verification of the sample-streaming synthesis engine (SoundOfCode, main.go).

The Go source is shallowly embedded below. Machine integers (int64, int)
become ℤ or ℕ; float64 values become ℝ, with Go float-to-int conversion
modelled as truncation toward zero; byte stores are modelled through their
two-complement low bits (emod 256). The byte contents produced by the three
format loops are threaded through a generator parameter where only the
buffer bookkeeping is at stake, and are given explicitly (sampleU8byte,
sampleS16) where the packed values themselves are at stake. Randomness in
generateOvertone (a seeded source plus per-overtone draws) is passed in as
explicit oracle arguments, and time-based seeding is abstracted the same
way. The process-wide mutable variable currentPhase is modelled by explicit
state passing through NewSineWave.
-/

/-- Sample formats of the oto library used by the program (oto.Format). -/
inductive Oto.Format where
  | FormatFloat32LE : Oto.Format
  | FormatUnsignedInt8 : Oto.Format
  | FormatSignedInt16LE : Oto.Format
deriving DecidableEq

/-- Constant maxOvertone = 8 from the const block of main.go. -/
def maxOvertone : ℕ := 8

/-- Embedding of formatByteLength (main.go lines 39-50). -/
def formatByteLength : Oto.Format → ℕ
  | .FormatFloat32LE => 4
  | .FormatUnsignedInt8 => 1
  | .FormatSignedInt16LE => 2

/-- Embedding of the Envelope struct (main.go lines 290-295); float64 fields
become ℝ. -/
structure Envelope where
  Attack : ℝ
  Decay : ℝ
  Sustain : ℝ
  Release : ℝ

/-- Embedding of the SineWave struct (main.go lines 28-37). int64 fields
become ℤ, the byte slice `remaining` becomes a list of integers, float64
fields become ℝ. -/
structure SineWave where
  freq : ℝ
  length : ℤ
  pos : ℤ
  channelCount : ℕ
  format : Oto.Format
  remaining : List ℤ
  envelope : Envelope
  phase : ℝ

/-- Go conversion of a float64 to an integer type: truncation toward zero. -/
noncomputable def truncZ (x : ℝ) : ℤ :=
  if 0 ≤ x then ⌊x⌋ else -⌊-x⌋

/-- Go math.Mod(x, y): the remainder x - y*trunc(x/y), sign following x. -/
noncomputable def goMod (x y : ℝ) : ℝ :=
  x - y * (truncZ (x / y) : ℝ)

/-- Embedding of NewSineWave (main.go lines 52-79). The process-wide mutable
variable currentPhase is passed in explicitly and the updated value is
returned alongside the engine, so one construction is a state transformer on
the global. `duration` is a Go time.Duration, an int64 count of nanoseconds;
`int64(time.Second)` is the literal 1000000000, and Go integer division
truncates toward zero (Int.tdiv). The envelope is built with
Attack = 0.01, Decay = 0.2, Sustain = 0.7, Release = float64(duration)*0.1. -/
noncomputable def NewSineWave (currentPhase : ℝ) (sampleRate : ℤ) (freq : ℝ)
    (duration : ℤ) (channelCount : ℕ) (format : Oto.Format) : SineWave × ℝ :=
  let l0 : ℤ := Int.tdiv ((channelCount : ℤ) * (formatByteLength format : ℤ)
                  * sampleRate * duration) 1000000000
  let l : ℤ := Int.tdiv l0 4 * 4
  let endPhase : ℝ := goMod (currentPhase + 2 * Real.pi * freq * (duration : ℝ))
                        (2 * Real.pi)
  ({ freq := freq
     length := l
     pos := 0
     channelCount := channelCount
     format := format
     remaining := []
     envelope := { Attack := 0.01, Decay := 0.2, Sustain := 0.7,
                   Release := (duration : ℝ) * 0.1 }
     phase := currentPhase },
   endPhase)

/-- Embedding of Envelope.Amplitude (main.go lines 297-313). Note that the
local `total` adds the Sustain field (a level) to the three durations,
exactly as the source does. -/
noncomputable def Envelope.Amplitude (env : Envelope) (t : ℝ) : ℝ :=
  let total := env.Attack + env.Decay + env.Sustain + env.Release
  if t < env.Attack then t / env.Attack
  else if t < env.Attack + env.Decay then
    1 - (t - env.Attack) / env.Decay * (1 - env.Sustain)
  else if t < total - env.Release then env.Sustain
  else env.Sustain * Real.exp (-((t - (total - env.Release)) / env.Release))

/-- Rounding of a buffer size up to the next multiple of 4, as done by
`make([]byte, len(origBuf)+4-len(origBuf)%4)` in Read (main.go lines 100-103)
when the caller buffer length is not a multiple of 4. -/
def roundUp4 (n : ℕ) : ℕ :=
  if n % 4 > 0 then n + (4 - n % 4) else n

/-- Contents written into the working buffer by the per-format loops of Read
(main.go lines 115-164): byte j of the buffer belongs to the frame of sample
index p0 + j / num and to offset j % num inside that frame; the generator
argument gives its value. Each format loop is one such generator. -/
def generateBuf (gen : ℤ → ℕ → ℤ) (p0 : ℤ) (num len : ℕ) : List ℤ :=
  (List.range len).map fun j => gen (p0 + ((j / num : ℕ) : ℤ)) (j % num)

/-- Tail of SineWave.Read after the two early returns (main.go lines
99-177): `len1` is the (possibly clamped) caller buffer length and `eof`
records whether the clamp fired. When len1 is not a multiple of 4 the
source substitutes a working buffer rounded up to the next multiple of 4
(`buf = make([]byte, len(origBuf)+4-len(origBuf)%4)`), generates into it,
advances pos by the working buffer length, copies the caller prefix back
and stashes the tail as the new `remaining`; otherwise it generates into
the caller buffer directly and advances pos by its length. -/
def readCore (gen : ℤ → ℕ → ℤ) (s : SineWave) (len1 : ℕ) (eof : Bool) :
    SineWave × ℕ × Bool :=
  let len2 : ℕ := roundUp4 len1
  let num : ℕ := formatByteLength s.format * s.channelCount
  let buf : List ℤ := generateBuf gen (Int.tdiv s.pos (num : ℤ)) num len2
  if len1 % 4 > 0 then
    ({ s with pos := s.pos + (len2 : ℤ), remaining := buf.drop len1 },
     len1, eof)
  else
    ({ s with pos := s.pos + (len2 : ℤ) }, len2, eof)

/-- Embedding of SineWave.Read (main.go lines 81-178) as a step function from
an engine state and a caller buffer length to the new state, the byte count
returned, and whether io.EOF was returned. The branches mirror the source:
drain `remaining` and return early when it is nonempty; return (0, EOF) at
the end position; clamp the buffer to the bytes left before the end,
marking eof; then run the generation tail readCore. -/
def SineWave.read (gen : ℤ → ℕ → ℤ) (s : SineWave) (bufLen : ℕ) :
    SineWave × ℕ × Bool :=
  if 0 < s.remaining.length then
    let n := min bufLen s.remaining.length
    ({ s with remaining := s.remaining.drop n }, n, false)
  else if s.pos = s.length then
    (s, 0, true)
  else if s.pos + (bufLen : ℤ) > s.length then
    readCore gen s (s.length - s.pos).toNat true
  else
    readCore gen s bufLen false

/-- Iterated pull calls: fold SineWave.read over a list of caller buffer
sizes, keeping the engine state. -/
def runReads (gen : ℤ → ℕ → ℤ) (s : SineWave) (ns : List ℕ) : SineWave :=
  ns.foldl (fun t n => (SineWave.read gen t n).1) s

/-- The fundamental partial of the float32 path of Read (main.go lines
117-126): `float32(math.Sin((freqFundamental*math.Pi*float64(p)/length +
s.phase) * amplitudeFundamental))` with freqFundamental = 2 and
amplitudeFundamental = 0.6, then multiplied in place by the release ramp
`(length - p) / Release` when p is past length - Release and by
Envelope.Amplitude(p) otherwise. float32 narrowing is idealised away. -/
noncomputable def fundamentalSample (env : Envelope) (sampleRate : ℤ)
    (freq phase : ℝ) (p : ℤ) : ℝ :=
  let length : ℝ := (sampleRate : ℝ) / freq
  let raw : ℝ := Real.sin ((2 * Real.pi * (p : ℝ) / length + phase) * 0.6)
  raw * (if (p : ℝ) > length - env.Release then
           (length - (p : ℝ)) / env.Release
         else env.Amplitude (p : ℝ))

/-- Embedding of generateOvertone (main.go lines 315-336). The seeded random
source and the per-overtone rand.Float64() draws are passed in as oracles r0
and phaseDraw. The loop accumulates the sum while halving the running
amplitude; after the loop the source multiplies the (now dead) local
amplitude by the release ramp and returns the accumulated sum unchanged. -/
noncomputable def generateOvertone (r0 : ℝ) (phaseDraw : ℕ → ℝ) (p : ℤ)
    (seedFreq seedAmp length release : ℝ) : ℝ :=
  let init : ℝ × ℝ := (0, seedAmp * r0)
  let res := (List.range maxOvertone).foldl
    (fun (st : ℝ × ℝ) i =>
      let freqOvertone := seedFreq * (((i + 1 : ℕ)) : ℝ)
      let amp := st.2 * 0.5
      let phase := phaseDraw (i + 1) * 2 * Real.pi
      (st.1 + Real.sin ((freqOvertone * Real.pi * (p : ℝ) / length + phase) * amp),
       amp))
    init
  let _ampReleased :=
    if (p : ℝ) > length - release then res.2 * ((length - (p : ℝ)) / release)
    else res.2
  res.1

/-- Two-complement wrap of an integer into the int16 range, the effect of the
Go conversion int16(x) on an in-range-or-not value. -/
def wrap16 (n : ℤ) : ℤ :=
  (n + 32768) % 65536 - 32768

/-- Low byte of a two-complement int16 value: Go byte(b). -/
def lowByte (v : ℤ) : ℤ := v % 256

/-- High byte of a two-complement int16 value: Go byte(b >> 8), an arithmetic
shift (floor division by 256) followed by taking the low 8 bits. -/
def highByte (v : ℤ) : ℤ := (v / 256) % 256

/-- The byte stored for every channel by the unsigned-8-bit loop of Read
(main.go lines 145-153): `b := int(math.Sin(2*math.Pi*float64(p)/length) *
0.3 * max)` with max = 127 and length = sampleRate/freq, stored as
byte(b + 128). Neither the envelope, nor the carried phase, nor any overtone
enters this path. -/
noncomputable def sampleU8byte (sampleRate : ℤ) (freq : ℝ) (p : ℤ) : ℤ :=
  (truncZ (Real.sin (2 * Real.pi * (p : ℝ) / ((sampleRate : ℝ) / freq))
     * 0.3 * 127) + 128) % 256

/-- The int16 sample of the signed-16-bit loop of Read (main.go lines
154-163): `b := int16(math.Sin(2*math.Pi*float64(p)/length) * 0.3 * max)`
with max = 32767. Neither the envelope, nor the carried phase, nor any
overtone enters this path. -/
noncomputable def sampleS16 (sampleRate : ℤ) (freq : ℝ) (p : ℤ) : ℤ :=
  wrap16 (truncZ (Real.sin (2 * Real.pi * (p : ℝ) / ((sampleRate : ℝ) / freq))
    * 0.3 * 32767))

/-- Per-byte generator of the unsigned-8-bit loop: every offset inside a
frame receives the same byte. -/
noncomputable def genU8bytes (sampleRate : ℤ) (freq : ℝ) : ℤ → ℕ → ℤ :=
  fun p _off => sampleU8byte sampleRate freq p

/-- Per-byte generator of the signed-16-bit loop: each channel receives the
little-endian pair (byte(b), byte(b >> 8)) at frame offsets 2*ch and
2*ch + 1. -/
noncomputable def genS16bytes (sampleRate : ℤ) (freq : ℝ) : ℤ → ℕ → ℤ :=
  fun p off =>
    if off % 2 = 0 then lowByte (sampleS16 sampleRate freq p)
    else highByte (sampleS16 sampleRate freq p)

/-- A concrete content generator used by witnesses and counterexamples whose
claims do not depend on the generated bytes. -/
def gen0 : ℤ → ℕ → ℤ := fun _ _ => 0

/-- Concrete engine states used by witnesses and counterexamples. -/
def sEOF : SineWave :=
  { freq := 1, length := 8, pos := 8, channelCount := 2,
    format := Oto.Format.FormatSignedInt16LE, remaining := [],
    envelope := { Attack := 0, Decay := 0, Sustain := 0, Release := 0 },
    phase := 0 }

/-- Engine state holding one leftover byte with the stream not yet at its
end. -/
def sC1 : SineWave :=
  { freq := 1, length := 8, pos := 4, channelCount := 2,
    format := Oto.Format.FormatSignedInt16LE, remaining := [7],
    envelope := { Attack := 0, Decay := 0, Sustain := 0, Release := 0 },
    phase := 0 }

/-- Engine state with unsigned-8-bit format and one channel, whose frame
size is a single byte. -/
def sC7 : SineWave :=
  { freq := 1, length := 8, pos := 0, channelCount := 1,
    format := Oto.Format.FormatUnsignedInt8, remaining := [],
    envelope := { Attack := 0, Decay := 0, Sustain := 0, Release := 0 },
    phase := 0 }

-- Branch equations and field bookkeeping for the read step.

theorem read_drain (gen : ℤ → ℕ → ℤ) (s : SineWave) (n : ℕ)
    (h : 0 < s.remaining.length) :
    SineWave.read gen s n =
      ({ s with remaining := s.remaining.drop (min n s.remaining.length) },
       min n s.remaining.length, false) := by
  unfold SineWave.read
  rw [if_pos h]

theorem readCore_pos (gen : ℤ → ℕ → ℤ) (s : SineWave) (len1 : ℕ) (eof : Bool) :
    (readCore gen s len1 eof).1.pos = s.pos + (roundUp4 len1 : ℤ) := by
  unfold readCore
  by_cases h : len1 % 4 > 0 <;> simp [h]

theorem readCore_length (gen : ℤ → ℕ → ℤ) (s : SineWave) (len1 : ℕ)
    (eof : Bool) : (readCore gen s len1 eof).1.length = s.length := by
  unfold readCore
  by_cases h : len1 % 4 > 0 <;> simp [h]

theorem readCore_remaining_length (gen : ℤ → ℕ → ℤ) (s : SineWave)
    (len1 : ℕ) (eof : Bool) :
    (readCore gen s len1 eof).1.remaining.length =
      if len1 % 4 > 0 then roundUp4 len1 - len1 else s.remaining.length := by
  unfold readCore
  by_cases h : len1 % 4 > 0 <;>
    simp [h, generateBuf, List.length_drop]

theorem roundUp4_le_of_dvd (m : ℕ) (M : ℤ) (hM : 4 ∣ M) (h : (m : ℤ) ≤ M) :
    (roundUp4 m : ℤ) ≤ M := by
  unfold roundUp4
  split <;> omega

theorem roundUp4_dvd (m : ℕ) : 4 ∣ roundUp4 m := by
  unfold roundUp4
  split <;> omega

theorem le_roundUp4 (m : ℕ) : m ≤ roundUp4 m := by
  unfold roundUp4
  split <;> omega

theorem roundUp4_eq_of_dvd (m : ℕ) (h : 4 ∣ m) : roundUp4 m = m := by
  unfold roundUp4
  split <;> omega

/-- The state-machine invariant behind claim C4: the position is a
nonnegative multiple of 4 bounded by the total length, and the total length
is itself a multiple of 4 (NewSineWave rounds it down to one). -/
def Inv4 (s : SineWave) : Prop :=
  0 ≤ s.pos ∧ s.pos ≤ s.length ∧ (4 : ℤ) ∣ s.pos ∧ (4 : ℤ) ∣ s.length

theorem read_inv (gen : ℤ → ℕ → ℤ) (s : SineWave) (n : ℕ) (h : Inv4 s) :
    Inv4 (SineWave.read gen s n).1 ∧ s.pos ≤ (SineWave.read gen s n).1.pos := by
  obtain ⟨h0, hle, hp4, hl4⟩ := h
  unfold SineWave.read
  split
  · exact ⟨⟨h0, hle, hp4, hl4⟩, le_refl _⟩
  · split
    · exact ⟨⟨h0, hle, hp4, hl4⟩, le_refl _⟩
    · split
      · -- clamped: the working buffer length is exactly the multiple of 4
        -- left before the end, so pos lands on length.
        rename_i hne hclamp
        have hd : (4 : ℤ) ∣ s.length - s.pos := by omega
        have hdn : 4 ∣ (s.length - s.pos).toNat := by omega
        unfold Inv4
        rw [readCore_pos, readCore_length, roundUp4_eq_of_dvd _ hdn]
        omega
      · -- not clamped: the rounded working buffer still fits below length
        -- because length - pos is a multiple of 4.
        rename_i hne hclamp
        have hd : (4 : ℤ) ∣ s.length - s.pos := by omega
        have hlt : (n : ℤ) ≤ s.length - s.pos := by omega
        have hup : (roundUp4 n : ℤ) ≤ s.length - s.pos :=
          roundUp4_le_of_dvd n _ hd hlt
        have hdvd : 4 ∣ roundUp4 n := roundUp4_dvd n
        unfold Inv4
        rw [readCore_pos, readCore_length]
        omega

theorem runReads_inv (gen : ℤ → ℕ → ℤ) (s : SineWave) (ns : List ℕ)
    (h : Inv4 s) :
    Inv4 (runReads gen s ns) ∧ s.pos ≤ (runReads gen s ns).pos := by
  induction ns generalizing s with
  | nil => exact ⟨h, le_refl _⟩
  | cons n ns ih =>
    have h1 := read_inv gen s n h
    have h2 := ih _ h1.1
    exact ⟨h2.1, le_trans h1.2 h2.2⟩

theorem runReads_length (gen : ℤ → ℕ → ℤ) (s : SineWave) (ns : List ℕ) :
    (runReads gen s ns).length = s.length := by
  induction ns generalizing s with
  | nil => rfl
  | cons n ns ih =>
    have hstep : (SineWave.read gen s n).1.length = s.length := by
      unfold SineWave.read
      split
      · rfl
      · split
        · rfl
        · split
          · rw [readCore_length]
          · rw [readCore_length]
    rw [runReads, List.foldl_cons, ← runReads, ih, hstep]

theorem NewSineWave_pos (currentPhase : ℝ) (sampleRate : ℤ) (freq : ℝ)
    (duration : ℤ) (channelCount : ℕ) (format : Oto.Format) :
    (NewSineWave currentPhase sampleRate freq duration channelCount
      format).1.pos = 0 := rfl

theorem NewSineWave_length (currentPhase : ℝ) (sampleRate : ℤ) (freq : ℝ)
    (duration : ℤ) (channelCount : ℕ) (format : Oto.Format) :
    (NewSineWave currentPhase sampleRate freq duration channelCount
      format).1.length =
      Int.tdiv (Int.tdiv ((channelCount : ℤ) * (formatByteLength format : ℤ)
        * sampleRate * duration) 1000000000) 4 * 4 := rfl

theorem NewSineWave_inv (currentPhase : ℝ) (sampleRate : ℤ) (freq : ℝ)
    (duration : ℤ) (channelCount : ℕ) (format : Oto.Format)
    (hr : 0 ≤ sampleRate) (hd : 0 ≤ duration) :
    Inv4 (NewSineWave currentPhase sampleRate freq duration channelCount
      format).1 := by
  have hbase : 0 ≤ (channelCount : ℤ) * (formatByteLength format : ℤ)
      * sampleRate * duration := by positivity
  have h0 : 0 ≤ Int.tdiv ((channelCount : ℤ) * (formatByteLength format : ℤ)
      * sampleRate * duration) 1000000000 := Int.tdiv_nonneg hbase (by norm_num)
  have h1 : 0 ≤ Int.tdiv (Int.tdiv ((channelCount : ℤ)
      * (formatByteLength format : ℤ) * sampleRate * duration) 1000000000) 4 :=
    Int.tdiv_nonneg h0 (by norm_num)
  unfold Inv4
  rw [NewSineWave_pos, NewSineWave_length]
  omega

theorem roundUp4_sub_le (m : ℕ) : roundUp4 m - m ≤ 3 := by
  unfold roundUp4
  split <;> omega

/-- Claim C4 (confirmed): across every sequence of pull calls on one engine
built by NewSineWave from a nonnegative sample rate and duration, the
current position is monotonically non-decreasing and never exceeds the
total length — including on calls whose caller buffer size is not a
multiple of 4, where the internal working buffer is rounded up before the
position is advanced by its length. -/
theorem C4_position_monotone_bounded (gen : ℤ → ℕ → ℤ) (currentPhase : ℝ)
    (sampleRate : ℤ) (freq : ℝ) (duration : ℤ) (channelCount : ℕ)
    (format : Oto.Format) (hr : 0 ≤ sampleRate) (hd : 0 ≤ duration)
    (ns : List ℕ) (n : ℕ) :
    (runReads gen (NewSineWave currentPhase sampleRate freq duration
        channelCount format).1 ns).pos ≤
      (runReads gen (NewSineWave currentPhase sampleRate freq duration
        channelCount format).1 (ns ++ [n])).pos ∧
    (runReads gen (NewSineWave currentPhase sampleRate freq duration
        channelCount format).1 (ns ++ [n])).pos ≤
      (NewSineWave currentPhase sampleRate freq duration channelCount
        format).1.length := by
  have hinv := NewSineWave_inv currentPhase sampleRate freq duration
    channelCount format hr hd
  have h1 := runReads_inv gen _ ns hinv
  have hstep := read_inv gen (runReads gen (NewSineWave currentPhase
    sampleRate freq duration channelCount format).1 ns) n h1.1
  have happ : runReads gen (NewSineWave currentPhase sampleRate freq duration
      channelCount format).1 (ns ++ [n]) =
      (SineWave.read gen (runReads gen (NewSineWave currentPhase sampleRate
        freq duration channelCount format).1 ns) n).1 := by
    unfold runReads
    rw [List.foldl_append]
    rfl
  constructor
  · rw [happ]
    exact hstep.2
  · have h2 := (runReads_inv gen _ (ns ++ [n]) hinv).1.2.1
    rwa [runReads_length] at h2

/-- Witness for C4_position_monotone_bounded at a concrete engine and pull
sequence. -/
theorem C4_position_monotone_bounded_witness :
    (runReads gen0 (NewSineWave 0 48000 440 1000000000 2
        Oto.Format.FormatSignedInt16LE).1 [10]).pos ≤
      (runReads gen0 (NewSineWave 0 48000 440 1000000000 2
        Oto.Format.FormatSignedInt16LE).1 ([10] ++ [7])).pos ∧
    (runReads gen0 (NewSineWave 0 48000 440 1000000000 2
        Oto.Format.FormatSignedInt16LE).1 ([10] ++ [7])).pos ≤
      (NewSineWave 0 48000 440 1000000000 2
        Oto.Format.FormatSignedInt16LE).1.length :=
  C4_position_monotone_bounded gen0 0 48000 440 1000000000 2
    Oto.Format.FormatSignedInt16LE (by norm_num) (by norm_num) [10] 7

/-- Claim C5 (confirmed): once the terminal state is reached (position equals
total length with the leftover buffer empty, the state in which end-of-stream
was signaled), every further pull call, whatever its requested size, returns
zero bytes with the end-of-stream signal and leaves the engine unchanged. -/
theorem C5_eof_idempotent (gen : ℤ → ℕ → ℤ) (s : SineWave) (n : ℕ)
    (h1 : s.remaining = []) (h2 : s.pos = s.length) :
    SineWave.read gen s n = (s, 0, true) := by
  unfold SineWave.read
  rw [h1]
  simp [h2]

/-- Witness for C5_eof_idempotent on a concrete terminal state. -/
theorem C5_eof_idempotent_witness :
    SineWave.read gen0 sEOF 16 = (sEOF, 0, true) :=
  C5_eof_idempotent gen0 sEOF 16 rfl rfl

/-- Claim C1 (amended): a pull call that begins with a nonempty leftover
buffer of k bytes copies min(n, k) of them into the caller buffer and
returns that count immediately with no end signal, leaving the position
untouched and generating nothing — also when k < n and the position is
below the total length; sample generation happens only on calls that begin
with an empty leftover buffer. -/
theorem C1_leftover_drain_only (gen : ℤ → ℕ → ℤ) (s : SineWave) (n : ℕ)
    (h : 0 < s.remaining.length) :
    SineWave.read gen s n =
      ({ s with remaining := s.remaining.drop (min n s.remaining.length) },
       min n s.remaining.length, false) :=
  read_drain gen s n h

/-- Witness for C1_leftover_drain_only on a concrete draining state. -/
theorem C1_leftover_drain_only_witness :
    SineWave.read gen0 sC1 4 = ({ sC1 with remaining := [] }, 1, false) :=
  C1_leftover_drain_only gen0 sC1 4 (by decide)

/-- Counterexample to claim C1 as stated: a pull call on sC1 has a caller
buffer of n = 4 bytes, a leftover of k = 1 byte (0 < k < n) and a position
below the total length, yet it returns exactly k bytes — not more than k —
and advances nothing. -/
theorem C1_partly_satisfied_counterexample :
    0 < sC1.remaining.length ∧ sC1.remaining.length < 4 ∧
    sC1.pos < sC1.length ∧
    (SineWave.read gen0 sC1 4).2.1 = sC1.remaining.length ∧
    (SineWave.read gen0 sC1 4).1.pos = sC1.pos := by
  refine ⟨by decide, by decide, by decide, by decide, by decide⟩

/-- Claim C7 (amended): after every pull call the leftover buffer holds at
most 3 bytes (the working buffer exceeds the caller buffer by
4 - n % 4 ∈ {1,2,3} bytes at most); this is strictly smaller than one frame
exactly when the frame size channel_count × bytes_per_sample is at least 4
— for unsigned-8-bit with fewer than 4 channels, or signed-16-bit with one
channel, the leftover can reach or exceed one frame. -/
theorem C7_leftover_at_most_three (gen : ℤ → ℕ → ℤ) (s : SineWave) (n : ℕ)
    (h : s.remaining.length ≤ 3) :
    (SineWave.read gen s n).1.remaining.length ≤ 3 ∧
    (4 ≤ formatByteLength s.format * s.channelCount →
      (SineWave.read gen s n).1.remaining.length <
        formatByteLength s.format * s.channelCount) := by
  have key : (SineWave.read gen s n).1.remaining.length ≤ 3 := by
    unfold SineWave.read
    split
    · dsimp only
      rw [List.length_drop]
      omega
    · split
      · exact h
      · split
        · rw [readCore_remaining_length]
          have h3 := roundUp4_sub_le (s.length - s.pos).toNat
          split
          · omega
          · exact h
        · rw [readCore_remaining_length]
          have h3 := roundUp4_sub_le n
          split
          · omega
          · exact h
  exact ⟨key, fun h4 => by omega⟩

/-- Witness for C7_leftover_at_most_three: a concrete pull whose caller
buffer length 5 is not a multiple of 4 leaves at most 3 leftover bytes, and
on a signed-16-bit stereo state (frame size 4) the leftover stays below one
frame. -/
theorem C7_leftover_at_most_three_witness :
    (SineWave.read gen0 sC7 5).1.remaining.length ≤ 3 ∧
    (SineWave.read gen0 sEOF 16).1.remaining.length <
      formatByteLength sEOF.format * sEOF.channelCount :=
  ⟨(C7_leftover_at_most_three gen0 sC7 5 (by decide)).1,
   (C7_leftover_at_most_three gen0 sEOF 16 (by decide)).2 (by decide)⟩

/-- Counterexample to claim C7 as stated: with unsigned-8-bit format and one
channel the frame is a single byte, and a pull with a 5-byte caller buffer
leaves a 3-byte leftover, which is not strictly smaller than one frame. -/
theorem C7_leftover_frame_counterexample :
    (SineWave.read gen0 sC7 5).1.remaining.length = 3 ∧
    formatByteLength sC7.format * sC7.channelCount = 1 ∧
    ¬ ((SineWave.read gen0 sC7 5).1.remaining.length <
        formatByteLength sC7.format * sC7.channelCount) := by
  refine ⟨by decide, by decide, by decide⟩

/-- Claim C8 (the code defect behind it): the value returned by
generateOvertone does not depend on the release argument at all — the
release attenuation `amplitudeOvertone *= (length - p) / release` computed
after the summation loop scales a local variable that is never read again,
so the overtone contribution is returned unattenuated even for sample
indices inside the release window. -/
theorem C8_release_scaling_dead (r0 : ℝ) (phaseDraw : ℕ → ℝ) (p : ℤ)
    (seedFreq seedAmp length release release2 : ℝ) :
    generateOvertone r0 phaseDraw p seedFreq seedAmp length release =
      generateOvertone r0 phaseDraw p seedFreq seedAmp length release2 := rfl

/-- Claim C3 (confirmed): for every elapsed time t past attack + decay (with
a nonnegative decay), Envelope.Amplitude returns the constant sustain level
while t is below totalDuration - release, and the exponential tail
sustainLevel * exp(-(t - (totalDuration - release)) / release) from there
on, where totalDuration is the total the evaluator computes —
attack + decay + sustain + release, the sustain term being the length the
sustain phase implicitly contributes. -/
theorem C3_envelope_sustain_release (env : Envelope) (t : ℝ)
    (hD : 0 ≤ env.Decay) (h : env.Attack + env.Decay ≤ t) :
    (t < env.Attack + env.Decay + env.Sustain + env.Release - env.Release →
      env.Amplitude t = env.Sustain) ∧
    (env.Attack + env.Decay + env.Sustain + env.Release - env.Release ≤ t →
      env.Amplitude t = env.Sustain * Real.exp
        (-((t - (env.Attack + env.Decay + env.Sustain + env.Release
            - env.Release)) / env.Release))) := by
  constructor
  · intro h3
    simp only [Envelope.Amplitude]
    rw [if_neg (by linarith), if_neg (by linarith), if_pos (by linarith)]
  · intro h3
    simp only [Envelope.Amplitude]
    rw [if_neg (by linarith), if_neg (by linarith), if_neg (by linarith)]

/-- Concrete envelope used by the C3 witness. -/
noncomputable def envC3 : Envelope :=
  { Attack := 0.25, Decay := 0.25, Sustain := 0.5, Release := 1 }

/-- Witness for C3_envelope_sustain_release in the sustain branch of a
concrete envelope. -/
theorem C3_envelope_sustain_release_witness :
    Envelope.Amplitude envC3 0.75 = envC3.Sustain :=
  (C3_envelope_sustain_release envC3 0.75
    (by norm_num [envC3]) (by norm_num [envC3])).1 (by norm_num [envC3])

/-- Claim C9 (amended): phase continuity is carried through the process-wide
mutable variable currentPhase rather than an explicit construction
parameter: an engine starts at whatever value the global holds at its
construction (two constructions with identical explicit parameters agree
exactly when the global agrees), and each construction moves the global to
the note end phase reduced modulo 2π, through which earlier constructions
influence later engines. -/
theorem C9_phase_from_global (st st2 : ℝ) (sampleRate : ℤ) (freq : ℝ)
    (duration : ℤ) (channelCount : ℕ) (format : Oto.Format) :
    ((NewSineWave st sampleRate freq duration channelCount format).1.phase =
      (NewSineWave st2 sampleRate freq duration channelCount format).1.phase
      ↔ st = st2) ∧
    (NewSineWave st sampleRate freq duration channelCount format).2 =
      goMod (st + 2 * Real.pi * freq * (duration : ℝ)) (2 * Real.pi) :=
  ⟨Iff.rfl, rfl⟩

/-- Counterexample to claim C9 as stated: two runs constructing an engine
with identical explicit construction parameters (rate 48000, frequency 1,
duration 1, 2 channels, signed 16-bit) obtain different starting phases
because in one run a prior construction (frequency 1/4) moved the
process-wide phase variable from 0 to π/2. -/
theorem C9_phase_global_counterexample :
    (NewSineWave ((NewSineWave 0 48000 (1/4) 1 2
        Oto.Format.FormatSignedInt16LE).2) 48000 1 1 2
        Oto.Format.FormatSignedInt16LE).1.phase ≠
      (NewSineWave 0 48000 1 1 2 Oto.Format.FormatSignedInt16LE).1.phase := by
  have hq : (Real.pi / 2) / (2 * Real.pi) = 1 / 4 := by
    have hpi : Real.pi ≠ 0 := Real.pi_ne_zero
    field_simp
    ring
  have htr : truncZ ((Real.pi / 2) / (2 * Real.pi)) = 0 := by
    rw [hq]
    unfold truncZ
    rw [if_pos (by norm_num)]
    norm_num [Int.floor_eq_iff]
  have hmod : goMod (Real.pi / 2) (2 * Real.pi) = Real.pi / 2 := by
    unfold goMod
    rw [htr]
    push_cast
    ring
  show (NewSineWave 0 48000 (1/4) 1 2 Oto.Format.FormatSignedInt16LE).2 ≠ 0
  show goMod ((0 : ℝ) + 2 * Real.pi * (1/4) * ((1 : ℤ) : ℝ)) (2 * Real.pi) ≠ 0
  have hx : (0 : ℝ) + 2 * Real.pi * (1/4) * ((1 : ℤ) : ℝ) = Real.pi / 2 := by
    push_cast
    ring
  rw [hx, hmod]
  exact ne_of_gt (by positivity)

/-- Concrete envelope used by the C2 analysis: attack 2, decay 1,
sustain 0.7, release 1. -/
noncomputable def envC2 : Envelope :=
  { Attack := 2, Decay := 1, Sustain := 0.7, Release := 1 }

/-- Claim C2 (the code defect behind it): at sample rate 4, frequency 1
(period length 4 samples), phase 0 and sample index 1, the envelope
multiplier is 1/2 and the packed fundamental is sin(3π/10)/2 — the constant
amplitude 0.6 multiplies the argument of the sine — which differs from the
claimed value sin(2π·p/periodLength + phase) scaled outside by the envelope
amplitude, namely sin(π/2)·(1/2) = 1/2. -/
theorem C2_amplitude_inside_sine_argument :
    Envelope.Amplitude envC2 ((1 : ℤ) : ℝ) = 1 / 2 ∧
    fundamentalSample envC2 4 1 0 1 = Real.sin (3 * Real.pi / 10) * (1 / 2) ∧
    fundamentalSample envC2 4 1 0 1 ≠
      Real.sin (2 * Real.pi * ((1 : ℤ) : ℝ) / (((4 : ℤ) : ℝ) / 1) + 0) *
        Envelope.Amplitude envC2 ((1 : ℤ) : ℝ) := by
  have hamp : Envelope.Amplitude envC2 ((1 : ℤ) : ℝ) = 1 / 2 := by
    simp only [Envelope.Amplitude, envC2]
    rw [if_pos (by push_cast; norm_num)]
    push_cast
    norm_num
  have harg : (2 * Real.pi * ((1 : ℤ) : ℝ) / (((4 : ℤ) : ℝ) / 1) + 0) * 0.6 =
      3 * Real.pi / 10 := by
    push_cast
    ring
  have harg2 : 2 * Real.pi * ((1 : ℤ) : ℝ) / (((4 : ℤ) : ℝ) / 1) + 0 =
      Real.pi / 2 := by
    push_cast
    ring
  have hval : fundamentalSample envC2 4 1 0 1 =
      Real.sin (3 * Real.pi / 10) * (1 / 2) := by
    show Real.sin ((2 * Real.pi * ((1 : ℤ) : ℝ) / (((4 : ℤ) : ℝ) / 1) + 0)
        * 0.6) *
      (if ((1 : ℤ) : ℝ) > ((4 : ℤ) : ℝ) / 1 - envC2.Release then
        (((4 : ℤ) : ℝ) / 1 - ((1 : ℤ) : ℝ)) / envC2.Release
      else envC2.Amplitude ((1 : ℤ) : ℝ)) = Real.sin (3 * Real.pi / 10) * (1 / 2)
    rw [harg, if_neg (by simp only [envC2]; push_cast; norm_num), hamp]
  have hlt : Real.sin (3 * Real.pi / 10) < 1 := by
    have hpi := Real.pi_pos
    have hmem1 : 3 * Real.pi / 10 ∈ Set.Icc (-(Real.pi / 2)) (Real.pi / 2) :=
      Set.mem_Icc.mpr ⟨by linarith, by linarith⟩
    have hmem2 : Real.pi / 2 ∈ Set.Icc (-(Real.pi / 2)) (Real.pi / 2) :=
      Set.mem_Icc.mpr ⟨by linarith, le_refl _⟩
    have := Real.strictMonoOn_sin hmem1 hmem2 (by linarith)
    rwa [Real.sin_pi_div_two] at this
  refine ⟨hamp, hval, ?_⟩
  rw [hval, hamp, harg2, Real.sin_pi_div_two]
  have : Real.sin (3 * Real.pi / 10) * (1 / 2) < 1 * (1 / 2) := by linarith
  exact ne_of_lt this

theorem truncZ_bound (x : ℝ) (c : ℤ) (hc : 0 ≤ c) (h : |x| < (c : ℝ) + 1) :
    -c ≤ truncZ x ∧ truncZ x ≤ c := by
  rcases abs_lt.mp h with ⟨hl, hu⟩
  unfold truncZ
  split
  · rename_i h0
    have h1 : 0 ≤ ⌊x⌋ := Int.floor_nonneg.mpr h0
    have h2 : ⌊x⌋ < c + 1 := Int.floor_lt.mpr (by push_cast; linarith)
    omega
  · rename_i h0
    push_neg at h0
    have h1 : 0 ≤ ⌊-x⌋ := Int.floor_nonneg.mpr (by linarith)
    have h2 : ⌊-x⌋ < c + 1 := Int.floor_lt.mpr (by push_cast; linarith)
    omega

theorem abs_sin_scaled_le (A m : ℝ) (hm : 0 < m) :
    |Real.sin A * 0.3 * m| ≤ 0.3 * m := by
  have h1 : |Real.sin A| ≤ 1 := Real.abs_sin_le_one A
  have h2 : |Real.sin A * 0.3 * m| = |Real.sin A| * 0.3 * m := by
    rw [abs_mul, abs_mul]
    norm_num [abs_of_pos hm]
  nlinarith [abs_nonneg (Real.sin A)]

/-- The byte of the unsigned-8-bit loop never wraps: it is the truncated
scaled sine plus the 128 offset, inside [90, 166]. -/
theorem sampleU8byte_eq_trunc (sampleRate : ℤ) (freq : ℝ) (p : ℤ) :
    sampleU8byte sampleRate freq p =
      truncZ (Real.sin (2 * Real.pi * (p : ℝ) / ((sampleRate : ℝ) / freq))
        * 0.3 * 127) + 128 := by
  unfold sampleU8byte
  have hb := truncZ_bound (Real.sin (2 * Real.pi * (p : ℝ)
    / ((sampleRate : ℝ) / freq)) * 0.3 * 127) 38 (by norm_num)
    (by have := abs_sin_scaled_le (2 * Real.pi * (p : ℝ)
          / ((sampleRate : ℝ) / freq)) 127 (by norm_num)
        calc |_| ≤ 0.3 * 127 := this
          _ < (38 : ℤ) + 1 := by push_cast; norm_num)
  exact Int.emod_eq_of_lt (by omega) (by omega)

/-- The int16 of the signed-16-bit loop never wraps: the truncated scaled
sine already lies inside [-9830, 9830]. -/
theorem sampleS16_eq_trunc (sampleRate : ℤ) (freq : ℝ) (p : ℤ) :
    sampleS16 sampleRate freq p =
      truncZ (Real.sin (2 * Real.pi * (p : ℝ) / ((sampleRate : ℝ) / freq))
        * 0.3 * 32767) := by
  unfold sampleS16 wrap16
  have hb := truncZ_bound (Real.sin (2 * Real.pi * (p : ℝ)
    / ((sampleRate : ℝ) / freq)) * 0.3 * 32767) 9830 (by norm_num)
    (by have := abs_sin_scaled_le (2 * Real.pi * (p : ℝ)
          / ((sampleRate : ℝ) / freq)) 32767 (by norm_num)
        calc |_| ≤ 0.3 * 32767 := this
          _ < (9830 : ℤ) + 1 := by push_cast; norm_num)
  rw [Int.emod_eq_of_lt (by omega) (by omega)]
  omega

/-- At sample rate 4, frequency 1 and sample index 3 the sine argument is
3π/2, where the sine is exactly -1. -/
theorem sampleS16_at_minus_one : sampleS16 4 1 3 = -9830 := by
  have harg : 2 * Real.pi * ((3 : ℤ) : ℝ) / (((4 : ℤ) : ℝ) / 1) =
      Real.pi + Real.pi / 2 := by
    push_cast
    ring
  have hsin : Real.sin (2 * Real.pi * ((3 : ℤ) : ℝ) / (((4 : ℤ) : ℝ) / 1))
      = -1 := by
    rw [harg, Real.sin_add, Real.sin_pi, Real.cos_pi, Real.sin_pi_div_two]
    ring
  rw [sampleS16_eq_trunc, hsin]
  have hx : (-1 : ℝ) * 0.3 * 32767 = -9830.1 := by norm_num
  rw [hx]
  unfold truncZ
  rw [if_neg (by norm_num)]
  norm_num [Int.floor_eq_iff]

/-- Claim C6 (amended): the unsigned-8-bit path packs each channel byte as
trunc(sin(2πp/periodLength)·0.3·127) + 128 and the signed-16-bit path packs
each channel sample as trunc(sin(2πp/periodLength)·0.3·32767) encoded
little-endian in two bytes, where trunc is the Go float-to-int conversion
truncating toward zero rather than rounding; the claimed example is
unaffected: a sample value of -1.0 in signed 16-bit packs as -9830,
little-endian bytes 154 and 217. -/
theorem C6_packing_truncates (rate : ℤ) (freq : ℝ) (p : ℤ) :
    sampleU8byte rate freq p =
      truncZ (Real.sin (2 * Real.pi * (p : ℝ) / ((rate : ℝ) / freq))
        * 0.3 * 127) + 128 ∧
    sampleS16 rate freq p =
      truncZ (Real.sin (2 * Real.pi * (p : ℝ) / ((rate : ℝ) / freq))
        * 0.3 * 32767) ∧
    sampleS16 4 1 3 = -9830 ∧
    lowByte (sampleS16 4 1 3) = 154 ∧
    highByte (sampleS16 4 1 3) = 217 := by
  refine ⟨sampleU8byte_eq_trunc rate freq p, sampleS16_eq_trunc rate freq p,
    sampleS16_at_minus_one, ?_, ?_⟩
  · rw [sampleS16_at_minus_one]
    decide
  · rw [sampleS16_at_minus_one]
    decide

/-- Counterexample to claim C6 as stated: at sample rate 8, frequency 1 and
sample index 1 the sine is sin(π/4) = √2/2, the scaled value is
19.05·√2 ≈ 26.94, and the code byte is trunc(26.94) + 128 = 154, while the
claimed round(26.94) + 128 is 155. -/
theorem C6_round_counterexample :
    sampleU8byte 8 1 1 ≠
      round (Real.sin (2 * Real.pi * ((1 : ℤ) : ℝ) / (((8 : ℤ) : ℝ) / 1))
        * 0.3 * 127) + 128 := by
  have h2 : Real.sqrt 2 ^ 2 = 2 := Real.sq_sqrt (by norm_num)
  have hpos : (0 : ℝ) ≤ Real.sqrt 2 := Real.sqrt_nonneg 2
  have hl : (1.414 : ℝ) < Real.sqrt 2 := by nlinarith
  have hu : Real.sqrt 2 < 1.4143 := by nlinarith
  have harg : 2 * Real.pi * ((1 : ℤ) : ℝ) / (((8 : ℤ) : ℝ) / 1) =
      Real.pi / 4 := by
    push_cast
    ring
  have hsin : Real.sin (2 * Real.pi * ((1 : ℤ) : ℝ) / (((8 : ℤ) : ℝ) / 1)) =
      Real.sqrt 2 / 2 := by
    rw [harg, Real.sin_pi_div_four]
  have hx : (0 : ℝ) ≤ Real.sqrt 2 / 2 * 0.3 * 127 := by positivity
  have hfl : ⌊Real.sqrt 2 / 2 * 0.3 * 127⌋ = 26 := by
    rw [Int.floor_eq_iff]
    constructor
    · push_cast
      nlinarith
    · push_cast
      nlinarith
  have hround : round (Real.sqrt 2 / 2 * 0.3 * 127) = 27 := by
    rw [round_eq, Int.floor_eq_iff]
    constructor
    · push_cast
      nlinarith
    · push_cast
      nlinarith
  have hcode : sampleU8byte 8 1 1 = 154 := by
    rw [sampleU8byte_eq_trunc, hsin]
    unfold truncZ
    rw [if_pos hx, hfl]
    decide
  rw [hcode, hsin, hround]
  norm_num

/-- Claim C10 (confirmed): in the unsigned-8-bit and signed-16-bit loops the
packed bytes are functions of the sample index, sample rate and frequency
alone — the loop bodies, embedded as genU8bytes and genS16bytes, take
neither the envelope fields nor the carried phase nor any overtone term,
unlike the float32 loop — and every channel of a frame receives an
identical copy of trunc(sin(2πp/periodLength)·0.3·max): every frame offset
carries the same byte in the 8-bit path, and the even/odd offsets of every
channel carry the same little-endian pair of the truncated value in the
16-bit path. -/
theorem C10_packed_bytes_depend_only_on_index (rate : ℤ) (freq : ℝ) (p : ℤ)
    (off off2 ch : ℕ) :
    genU8bytes rate freq p off = genU8bytes rate freq p off2 ∧
    genU8bytes rate freq p off =
      truncZ (Real.sin (2 * Real.pi * (p : ℝ) / ((rate : ℝ) / freq))
        * 0.3 * 127) + 128 ∧
    genS16bytes rate freq p (2 * ch) =
      lowByte (truncZ (Real.sin (2 * Real.pi * (p : ℝ) / ((rate : ℝ) / freq))
        * 0.3 * 32767)) ∧
    genS16bytes rate freq p (2 * ch + 1) =
      highByte (truncZ (Real.sin (2 * Real.pi * (p : ℝ) / ((rate : ℝ) / freq))
        * 0.3 * 32767)) := by
  refine ⟨rfl, sampleU8byte_eq_trunc rate freq p, ?_, ?_⟩
  · unfold genS16bytes
    rw [if_pos (by omega), sampleS16_eq_trunc]
  · unfold genS16bytes
    rw [if_neg (by omega), sampleS16_eq_trunc]
